import Mathlib

/-!
Shallow embedding of `era_py`'s `NumberedLines` class (`src/era_py/text.py`).

Strings are modelled as `List Char`; Python `int` as `Int`; fallible
operations return `Except PyErr _`.  Every definition follows the Python
source line by line:

* `splitlines` models `str.splitlines()` (splits on LF, CR, CRLF, VT, FF,
  FS, GS, RS, NEL, LS, PS; no trailing empty line; `"".splitlines() == []`).
* `mkNL` models `NumberedLines.__init__`.
* `nlGetInt` / `nlSlice` model `__getitem__` for `int` / `slice` keys
  (the slice branch re-invokes the constructor, exactly as the source does).
* `nlResetIndex`, `nlFilter`, `nlFilterOut`, `pyFormat`, `nlToList` model
  the remaining methods; the regex predicate `regex.search(line)` is
  abstracted as a boolean predicate on lines.
-/

namespace EraPy

/-- The line-boundary code points recognised by Python's `str.splitlines`. -/
def isLineBoundary (c : Char) : Bool :=
  c == Char.ofNat 0x0a || c == Char.ofNat 0x0d || c == Char.ofNat 0x0b ||
  c == Char.ofNat 0x0c || c == Char.ofNat 0x1c || c == Char.ofNat 0x1d ||
  c == Char.ofNat 0x1e || c == Char.ofNat 0x85 || c == Char.ofNat 0x2028 ||
  c == Char.ofNat 0x2029

/-- A line is terminator-free when none of its characters is a boundary. -/
def lineOK (l : List Char) : Bool :=
  l.all fun c => !isLineBoundary c

/-- Worker for `splitlines`: `cur` is the (reversed-free) current line being
accumulated.  Mirrors CPython's scan: `\r\n` counts as one boundary, a final
unterminated line is emitted, and no trailing empty line is produced. -/
def splitlinesGo : List Char → List Char → List (List Char)
  | [], cur => if cur = [] then [] else [cur]
  | [c], cur =>
      if isLineBoundary c then [cur] else [cur ++ [c]]
  | c1 :: c2 :: rest, cur =>
      if c1 = Char.ofNat 0x0d ∧ c2 = Char.ofNat 0x0a then
        cur :: splitlinesGo rest []
      else if isLineBoundary c1 then
        cur :: splitlinesGo (c2 :: rest) []
      else
        splitlinesGo (c2 :: rest) (cur ++ [c1])

/-- Python's `s.splitlines()`. -/
def splitlines (s : List Char) : List (List Char) :=
  splitlinesGo s []

/-- One element of the iterable passed to the constructor: a string, or a
non-string value (which the source silently skips). -/
inductive CtorItem where
  | str (s : List Char)
  | nonStr
  deriving DecidableEq

/-- The `lines` argument of `NumberedLines.__init__`: a single string, an
iterable, or a value that is neither (→ `TypeError`). -/
inductive CtorInput where
  | ofStr (s : List Char)
  | ofIter (items : List CtorItem)
  | other
  deriving DecidableEq

/-- The Python exceptions the source can raise. -/
inductive PyErr where
  /-- `TypeError("lines must be a string or an iterable of strings")` -/
  | typeError
  /-- `ValueError("index and lines must have the same length")` -/
  | lengthMismatch
  /-- `IndexError` from `self.lines[key]` with an integer key -/
  | indexOutOfRange
  /-- `ValueError("slice step cannot be zero")` -/
  | zeroStep
  deriving DecidableEq

/-- The dataclass state: `lines : list[str]`, `index : list[int]`. -/
structure NumberedLines where
  lines : List (List Char)
  index : List Int
  deriving DecidableEq

/-- The list comprehension
`[ln for item in items if isinstance(item, str) for ln in item.splitlines()]`. -/
def deriveFromItems : List CtorItem → List (List Char)
  | [] => []
  | .str s :: rest => splitlines s ++ deriveFromItems rest
  | .nonStr :: rest => deriveFromItems rest

/-- The `lines_list` computed by `__init__` (or `TypeError`). -/
def deriveLines : CtorInput → Except PyErr (List (List Char))
  | .ofStr s => .ok (splitlines s)
  | .ofIter items => .ok (deriveFromItems items)
  | .other => .error .typeError

/-- `list(range(n))` as a list of Python ints. -/
def intRange (n : Nat) : List Int :=
  (List.range n).map Int.ofNat

/-- `NumberedLines.__init__`: derive `lines_list`, then either default the
index to `range(n)` or validate the explicit index's length. -/
def mkNL (inp : CtorInput) (idx? : Option (List Int)) :
    Except PyErr NumberedLines :=
  match deriveLines inp with
  | .error e => .error e
  | .ok ls =>
    match idx? with
    | none => .ok ⟨ls, intRange ls.length⟩
    | some idx =>
      if idx.length = ls.length then .ok ⟨ls, idx⟩
      else .error .lengthMismatch

/-- `len(self)` = `len(self.lines)`. -/
def nlLen (X : NumberedLines) : Nat :=
  X.lines.length

/-- `list(self)` / `to_list(self)`: the underlying lines. -/
def nlToList (X : NumberedLines) : List (List Char) :=
  X.lines

/-- `self.lines[key]` for an integer key: Python list indexing, negative
keys count from the end, out-of-range raises `IndexError`. -/
def nlGetInt (X : NumberedLines) (i : Int) : Except PyErr (List Char) :=
  let n : Int := X.lines.length
  let j := if i < 0 then i + n else i
  if 0 ≤ j ∧ j < n then .ok (X.lines.getD j.toNat []) else .error .indexOutOfRange

/-- Bound normalisation for positive-step slices (CPython
`PySlice_AdjustIndices`): negatives count from the end, clamped to `[0, n]`;
`dflt` is `0` for a missing start and `n` for a missing stop. -/
def clampPos (n dflt : Nat) : Option Int → Nat
  | none => dflt
  | some v => if v < 0 then (v + n).toNat else min v.toNat n

/-- Bound normalisation for negative-step slices: clamped to `[-1, n-1]`;
`dflt` is `n-1` for a missing start and `-1` for a missing stop. -/
def clampNeg (n : Nat) (dflt : Int) : Option Int → Int
  | none => dflt
  | some v => if v < 0 then max (v + n) (-1) else min v ((n : Int) - 1)

/-- The index positions selected by Python's `l[start:stop:step]` on a list
of length `n`, following CPython's `PySlice_AdjustIndices`. -/
def sliceIndices (n : Nat) (s e st : Option Int) : Except PyErr (List Nat) :=
  let step := st.getD 1
  if step = 0 then .error .zeroStep
  else if 0 < step then
    let k := step.toNat
    let a := clampPos n 0 s
    let b := clampPos n n e
    let cnt := if a < b then (b - a - 1) / k + 1 else 0
    .ok ((List.range cnt).map fun j => a + j * k)
  else
    let k := (-step).toNat
    let a := clampNeg n ((n : Int) - 1) s
    let b := clampNeg n (-1) e
    let cnt := if b < a then (a - b - 1).toNat / k + 1 else 0
    .ok ((List.range cnt).map fun j => a.toNat - j * k)

/-- `l[start:stop:step]` on a list, given the selected positions. -/
def selectAt (l : List α) (d : α) (is : List Nat) : List α :=
  is.map fun i => l.getD i d

/-- `__getitem__` with a slice key:
`NumberedLines(self.lines[key], self.index[key])` — note that the sliced
lines are passed back through the constructor. -/
def nlSlice (X : NumberedLines) (s e st : Option Int) :
    Except PyErr NumberedLines :=
  match sliceIndices X.lines.length s e st with
  | .error er => .error er
  | .ok li =>
    match sliceIndices X.index.length s e st with
    | .error er => .error er
    | .ok ii =>
      mkNL (.ofIter ((selectAt X.lines [] li).map .str))
        (some (selectAt X.index 0 ii))

/-- `reset_index`: `NumberedLines(self.lines, range(len(self.lines)))`. -/
def nlResetIndex (X : NumberedLines) : Except PyErr NumberedLines :=
  mkNL (.ofIter (X.lines.map .str)) (some (intRange X.lines.length))

/-- The `(i, line)` pairs kept by the loop
`for i, line in zip(self.index, self.lines): if P(line): keep`. -/
def keepPairs (P : List Char → Bool) (X : NumberedLines) :
    List (Int × List Char) :=
  (X.index.zip X.lines).filter fun p => P p.2

/-- `filter(regex)`: keep lines where `regex.search(line)` succeeds, then
`NumberedLines(keep_lines, keep_index)`. -/
def nlFilter (P : List Char → Bool) (X : NumberedLines) :
    Except PyErr NumberedLines :=
  mkNL (.ofIter ((keepPairs P X).map fun p => .str p.2))
    (some ((keepPairs P X).map Prod.fst))

/-- `filter_out(regex)`: keep lines where `regex.search(line)` fails. -/
def nlFilterOut (P : List Char → Bool) (X : NumberedLines) :
    Except PyErr NumberedLines :=
  mkNL (.ofIter ((keepPairs (fun l => !P l) X).map fun p => .str p.2))
    (some ((keepPairs (fun l => !P l) X).map Prod.fst))

/-- The decimal digit character for `d < 10`. -/
def digitChar (d : Nat) : Char :=
  Char.ofNat (48 + d)

/-- Fuel-driven worker for the decimal representation of a `Nat`
(most significant digit first); `fuel ≥ n` makes it exact. -/
def natDecimalGo : Nat → Nat → List Char
  | 0, n => [digitChar (n % 10)]
  | f + 1, n =>
      if n < 10 then [digitChar n]
      else natDecimalGo f (n / 10) ++ [digitChar (n % 10)]

/-- The decimal representation of a `Nat`, e.g. `str(123) = "123"`. -/
def natDecimal (n : Nat) : List Char :=
  natDecimalGo n n

/-- Python's `str(i)` for an int: a minus sign followed by the digits of the
absolute value when negative. -/
def intStr (i : Int) : List Char :=
  if i < 0 then Char.ofNat 45 :: natDecimal i.natAbs else natDecimal i.natAbs

/-- Left-pad a digit string with `'0'` up to width `w`. -/
def leftPad0 (w : Nat) (s : List Char) : List Char :=
  List.replicate (w - s.length) (Char.ofNat 48) ++ s

/-- Python's `f"{i:0{pad}d}"`: sign-aware zero padding to total width `pad`. -/
def zeroPadInt (pad : Nat) (i : Int) : List Char :=
  if i < 0 then Char.ofNat 45 :: leftPad0 (pad - 1) (natDecimal i.natAbs)
  else leftPad0 pad (natDecimal i.natAbs)

/-- `max(self.index) if self.index else 0`. -/
def maxOrZero : List Int → Int
  | [] => 0
  | x :: xs => xs.foldl max x

/-- `format(pad=None)`: each entry is `f"{i:0{pad}d}: {line}"`, with the
default pad `max(2, len(str(max_idx)))`. -/
def pyFormat (X : NumberedLines) (pad? : Option Nat) : List (List Char) :=
  let pad := pad?.getD (max 2 (intStr (maxOrZero X.index)).length)
  (X.index.zip X.lines).map fun p =>
    zeroPadInt pad p.1 ++ Char.ofNat 58 :: Char.ofNat 32 :: p.2

/-- Modelled from the spec's words for claim C9 (a refinement target, to be
compared with `pyFormat`): the default padding width is
`max(2, number_of_decimal_digits_in(max(index) if index else 0))` and each
entry is the zero-padded index, `": "`, then the line. -/
def specFormatDefault (X : NumberedLines) : List (List Char) :=
  let pad := max 2 (natDecimal (maxOrZero X.index).natAbs).length
  (X.index.zip X.lines).map fun p =>
    zeroPadInt pad p.1 ++ Char.ofNat 58 :: Char.ofNat 32 :: p.2

/-- The `(original index, line)` pairs of an instance. -/
def pairs (X : NumberedLines) : List (Int × List Char) :=
  X.index.zip X.lines

/-- The invariant every constructor-produced instance satisfies:
terminator-free lines and equal lengths. -/
def WF (X : NumberedLines) : Prop :=
  (∀ l ∈ X.lines, lineOK l = true) ∧ X.lines.length = X.index.length

instance (X : NumberedLines) : Decidable (WF X) := by
  unfold WF; infer_instance

/-- `"a\n\nb"` as a character list. -/
def strAnnB : List Char :=
  [Char.ofNat 97, Char.ofNat 0x0a, Char.ofNat 0x0a, Char.ofNat 98]

/-- The instance `NumberedLines("a\n\nb")`: lines `["a", "", "b"]`,
index `[0, 1, 2]`. -/
def nlAnnB : NumberedLines :=
  ⟨[[Char.ofNat 97], [], [Char.ofNat 98]], [0, 1, 2]⟩

/-- `"x\n\n"` as a character list. -/
def strXnn : List Char :=
  [Char.ofNat 120, Char.ofNat 0x0a, Char.ofNat 0x0a]

/-- The instance `NumberedLines("x\n\n")`: lines `["x", ""]`, index `[0, 1]`. -/
def nlXnn : NumberedLines :=
  ⟨[[Char.ofNat 120], []], [0, 1]⟩

/-- `"a\nb"` as a character list. -/
def strAB : List Char :=
  [Char.ofNat 97, Char.ofNat 0x0a, Char.ofNat 98]

/-- The instance `NumberedLines("a\nb")`: lines `["a", "b"]`, index `[0, 1]`. -/
def nlAB : NumberedLines :=
  ⟨[[Char.ofNat 97], [Char.ofNat 98]], [0, 1]⟩

/-! ### Helper lemmas about `splitlines` -/

theorem splitlinesGo_lineOK :
    ∀ (s cur : List Char), lineOK cur = true →
      ∀ l ∈ splitlinesGo s cur, lineOK l = true
  | [], cur => by
      intro hc l hl
      simp only [splitlinesGo] at hl
      split at hl
      · simp at hl
      · simp at hl; subst hl; exact hc
  | [c], cur => by
      intro hc l hl
      simp only [splitlinesGo] at hl
      split at hl <;> simp at hl <;> subst hl
      · exact hc
      · rename_i hb
        simp [lineOK, List.all_append] at *
        exact ⟨hc, hb⟩
  | c1 :: c2 :: rest, cur => by
      intro hc l hl
      simp only [splitlinesGo] at hl
      split at hl
      · rcases List.mem_cons.mp hl with h | h
        · subst h; exact hc
        · exact splitlinesGo_lineOK rest [] rfl l h
      · split at hl
        · rcases List.mem_cons.mp hl with h | h
          · subst h; exact hc
          · exact splitlinesGo_lineOK (c2 :: rest) [] rfl l h
        · rename_i hb
          refine splitlinesGo_lineOK (c2 :: rest) (cur ++ [c1]) ?_ l hl
          simp [lineOK, List.all_append] at *
          exact ⟨hc, hb⟩

theorem splitlinesGo_of_lineOK :
    ∀ (s cur : List Char), lineOK s = true →
      splitlinesGo s cur = if cur ++ s = [] then [] else [cur ++ s]
  | [], cur => by
      intro _
      simp [splitlinesGo]
  | [c], cur => by
      intro hs
      simp [lineOK] at hs
      simp [splitlinesGo, hs]
  | c1 :: c2 :: rest, cur => by
      intro hs
      simp [lineOK] at hs
      obtain ⟨h1, h2, h3⟩ := hs
      have hrec := splitlinesGo_of_lineOK (c2 :: rest) (cur ++ [c1]) (by
        simp [lineOK]; exact ⟨h2, h3⟩)
      have hb1 : ¬(c1 = Char.ofNat 0x0d ∧ c2 = Char.ofNat 0x0a) := by
        rintro ⟨rfl, _⟩
        simp [isLineBoundary] at h1
      simp only [splitlinesGo, if_neg hb1, h1, if_false, Bool.false_eq_true]
      rw [hrec]
      simp

theorem splitlines_of_lineOK {l : List Char} (h : lineOK l = true) :
    splitlines l = if l = [] then [] else [l] := by
  simpa [splitlines] using splitlinesGo_of_lineOK l [] h

theorem splitlines_lineOK {s : List Char} :
    ∀ l ∈ splitlines s, lineOK l = true :=
  splitlinesGo_lineOK s [] rfl

/-! ### Helper lemmas about the derived `lines_list` -/

theorem deriveFromItems_lineOK :
    ∀ (items : List CtorItem), ∀ l ∈ deriveFromItems items, lineOK l = true
  | [] => by intro l hl; simp [deriveFromItems] at hl
  | .str s :: rest => by
      intro l hl
      simp only [deriveFromItems, List.mem_append] at hl
      rcases hl with h | h
      · exact splitlines_lineOK l h
      · exact deriveFromItems_lineOK rest l h
  | .nonStr :: rest => by
      intro l hl
      exact deriveFromItems_lineOK rest l hl

theorem deriveFromItems_map_str_length_le (ls : List (List Char))
    (h : ∀ l ∈ ls, lineOK l = true) :
    (deriveFromItems (ls.map .str)).length ≤ ls.length := by
  induction ls with
  | nil => simp [deriveFromItems]
  | cons l t ih =>
    have hOK : lineOK l = true := h l (by simp)
    have ih' := ih fun x hx => h x (by simp [hx])
    simp only [List.map_cons, deriveFromItems, List.length_append,
      splitlines_of_lineOK hOK]
    split <;> simp <;> omega

theorem deriveFromItems_map_str_len_eq_iff (ls : List (List Char))
    (h : ∀ l ∈ ls, lineOK l = true) :
    (deriveFromItems (ls.map .str)).length = ls.length ↔ ∀ l ∈ ls, l ≠ [] := by
  induction ls with
  | nil => simp [deriveFromItems]
  | cons l t ih =>
    have hOK : lineOK l = true := h l (by simp)
    have hrest : ∀ x ∈ t, lineOK x = true := fun x hx => h x (by simp [hx])
    have hle := deriveFromItems_map_str_length_le t hrest
    have hiff := ih hrest
    by_cases hnil : l = []
    · subst hnil
      have hsp : splitlines ([] : List Char) = [] := by
        simp [splitlines_of_lineOK hOK]
      simp only [List.map_cons, deriveFromItems, hsp, List.nil_append,
        List.length_cons]
      constructor
      · intro h'; omega
      · intro h'; exact absurd rfl (h' [] (by simp))
    · simp only [List.map_cons, deriveFromItems, splitlines_of_lineOK hOK,
        if_neg hnil, List.singleton_append, List.length_cons]
      constructor
      · intro h' x hx
        rcases List.mem_cons.mp hx with rfl | hx'
        · exact hnil
        · exact hiff.mp (by omega) x hx'
      · intro h'
        have := hiff.mpr (fun x hx => h' x (by simp [hx]))
        omega

theorem deriveFromItems_map_str_eq_self (ls : List (List Char))
    (h : ∀ l ∈ ls, lineOK l = true) (h2 : ∀ l ∈ ls, l ≠ []) :
    deriveFromItems (ls.map .str) = ls := by
  induction ls with
  | nil => simp [deriveFromItems]
  | cons l t ih =>
    have hOK : lineOK l = true := h l (by simp)
    have hne : l ≠ [] := h2 l (by simp)
    simp only [List.map_cons, deriveFromItems, splitlines_of_lineOK hOK,
      if_neg hne]
    rw [ih (fun x hx => h x (by simp [hx])) (fun x hx => h2 x (by simp [hx]))]
    rfl

/-! ### Constructor inversion lemmas -/

theorem mkNL_ok_some {inp : CtorInput} {idx : List Int} {X : NumberedLines} :
    mkNL inp (some idx) = .ok X ↔
      ∃ ls, deriveLines inp = .ok ls ∧ idx.length = ls.length ∧
        X = ⟨ls, idx⟩ := by
  cases h : deriveLines inp with
  | error e => simp [mkNL, h]
  | ok ls =>
    by_cases hl : idx.length = ls.length
    · simp only [mkNL, h, if_pos hl]
      constructor
      · intro h'
        cases h'
        exact ⟨ls, rfl, hl, rfl⟩
      · rintro ⟨ls', h1, h2, rfl⟩
        cases h1; rfl
    · simp only [mkNL, h, if_neg hl]
      constructor
      · intro h'; cases h'
      · rintro ⟨ls', h1, h2, rfl⟩
        cases h1; exact absurd h2 hl

theorem mkNL_ok_none {inp : CtorInput} {X : NumberedLines} :
    mkNL inp none = .ok X ↔
      ∃ ls, deriveLines inp = .ok ls ∧ X = ⟨ls, intRange ls.length⟩ := by
  cases h : deriveLines inp with
  | error e => simp [mkNL, h]
  | ok ls =>
    simp only [mkNL, h]
    constructor
    · intro h'
      cases h'
      exact ⟨ls, rfl, rfl⟩
    · rintro ⟨ls', h1, rfl⟩
      cases h1; rfl

/-- Characterisation of the internal reconstruction
`NumberedLines(ls, idx)` (list-of-strings path) when lengths already agree
and the lines are terminator-free: it succeeds exactly when no line is
empty, and then stores the data unchanged. -/
theorem mkNL_strs_ok {ls : List (List Char)} {idx : List Int}
    {X : NumberedLines}
    (hOK : ∀ l ∈ ls, lineOK l = true) (hlen : idx.length = ls.length) :
    mkNL (.ofIter (ls.map .str)) (some idx) = .ok X ↔
      ((∀ l ∈ ls, l ≠ []) ∧ X = ⟨ls, idx⟩) := by
  rw [mkNL_ok_some]
  constructor
  · rintro ⟨ls', h1, h2, rfl⟩
    have hd : deriveFromItems (ls.map .str) = ls' := by
      simpa [deriveLines] using h1
    subst hd
    have hne : ∀ l ∈ ls, l ≠ [] :=
      (deriveFromItems_map_str_len_eq_iff ls hOK).mp (by omega)
    exact ⟨hne, by rw [deriveFromItems_map_str_eq_self ls hOK hne]⟩
  · rintro ⟨hne, rfl⟩
    refine ⟨ls, ?_, hlen, rfl⟩
    simp [deriveLines, deriveFromItems_map_str_eq_self ls hOK hne]

/-! ### Generic list helpers -/

theorem getD_mem {l : List α} {i : Nat} {d : α} (h : i < l.length) :
    l.getD i d ∈ l := by
  rw [List.getD_eq_getElem l d h]
  exact List.getElem_mem h

theorem getD_drop (l : List α) (d : α) (m i : Nat) :
    (l.drop m).getD i d = l.getD (m + i) d := by
  rw [List.getD_eq_getElem?_getD, List.getD_eq_getElem?_getD,
    List.getElem?_drop]

theorem zip_getD {l₁ : List α} {l₂ : List β} {i : Nat} (d₁ : α) (d₂ : β)
    (h₁ : i < l₁.length) (h₂ : i < l₂.length) :
    (l₁.zip l₂).getD i (d₁, d₂) = (l₁.getD i d₁, l₂.getD i d₂) := by
  have hz : i < (l₁.zip l₂).length := by
    rw [List.length_zip]; omega
  rw [List.getD_eq_getElem _ _ hz, List.getD_eq_getElem _ _ h₁,
    List.getD_eq_getElem _ _ h₂, List.getElem_zip]

theorem zip_map_fst_snd (l : List (α × β)) :
    (l.map Prod.fst).zip (l.map Prod.snd) = l := by
  rw [List.zip_map']
  simp

/-- Selecting entries of `l` at strictly increasing positions
`a, a+k, a+2k, …` (all in range) yields a sublist of `l`. -/
theorem sel_sublist (d : α) (k : Nat) (hk : 0 < k) :
    ∀ (cnt : Nat) (a : Nat) (l : List α),
      (∀ j, j < cnt → a + j * k < l.length) →
      List.Sublist ((List.range cnt).map fun j => l.getD (a + j * k) d) l := by
  intro cnt
  induction cnt with
  | zero =>
    intro a l _
    simp
  | succ c ih =>
    intro a l hb
    have ha : a < l.length := by
      have := hb 0 (by omega); simpa using this
    rw [List.range_succ_eq_map, List.map_cons, List.map_map]
    have hhead : l.getD (a + 0 * k) d = l[a] := by
      simpa using List.getD_eq_getElem l d ha
    have htail :
        ((List.range c).map ((fun j => l.getD (a + j * k) d) ∘ Nat.succ)) =
        (List.range c).map fun j => (l.drop (a + 1)).getD ((k - 1) + j * k) d := by
      refine List.map_congr_left fun j hj => ?_
      have harith : a + (j + 1) * k = (a + 1) + ((k - 1) + j * k) := by
        rw [Nat.succ_mul]; omega
      simp only [Function.comp, Nat.succ_eq_add_one, harith, getD_drop]
    rw [hhead, htail]
    have hbs : ∀ j, j < c → (k - 1) + j * k < (l.drop (a + 1)).length := by
      intro j hj
      have := hb (j + 1) (by omega)
      rw [Nat.succ_mul] at this
      rw [List.length_drop]
      omega
    have h1 := ih (k - 1) (l.drop (a + 1)) hbs
    have h2 := h1.cons₂ l[a]
    rw [← List.drop_eq_getElem_cons ha] at h2
    exact h2.trans (List.drop_sublist a l)

/-! ### Facts about `sliceIndices` -/

theorem clampPos_le {n dflt : Nat} (hd : dflt ≤ n) (o : Option Int) :
    clampPos n dflt o ≤ n := by
  cases o with
  | none => exact hd
  | some v =>
    simp only [clampPos]
    by_cases hv : v < 0
    · rw [if_pos hv]
      have h1 : v + (n : Int) ≤ (n : Int) := by omega
      exact Int.toNat_le.mpr h1
    · rw [if_neg hv]
      exact min_le_right _ _

/-- A successful positive-step slice selects positions
`a, a+k, a+2k, …` that are all `< n`. -/
theorem sliceIndices_pos_spec {n : Nat} {s e st : Option Int} {is : List Nat}
    (hst : 0 < st.getD 1) (h : sliceIndices n s e st = .ok is) :
    ∃ a k cnt, 0 < k ∧ is = ((List.range cnt).map fun j => a + j * k) ∧
      ∀ j, j < cnt → a + j * k < n := by
  have hne : ¬st.getD 1 = 0 := by omega
  unfold sliceIndices at h
  rw [if_neg hne, if_pos hst] at h
  dsimp only at h
  refine ⟨clampPos n 0 s, (st.getD 1).toNat,
    if clampPos n 0 s < clampPos n n e
      then (clampPos n n e - clampPos n 0 s - 1) / (st.getD 1).toNat + 1
      else 0,
    by omega, ?_, ?_⟩
  · injection h with h
    exact h.symm
  · intro j hj
    set a := clampPos n 0 s with ha
    set b := clampPos n n e with hbdef
    have hbn : b ≤ n := clampPos_le (le_refl n) e
    by_cases hab : a < b
    · rw [if_pos hab] at hj
      set k := (st.getD 1).toNat with hkdef
      have hk : 0 < k := by omega
      have hjle : j ≤ (b - a - 1) / k := by omega
      have := (Nat.le_div_iff_mul_le hk).mp hjle
      omega
    · rw [if_neg hab] at hj
      omega

/-! ### Consequences of every operation routing through the constructor -/

theorem mkNL_ok_len {inp : CtorInput} {idx? : Option (List Int)}
    {X : NumberedLines} (h : mkNL inp idx? = .ok X) :
    X.lines.length = X.index.length := by
  cases idx? with
  | none =>
    obtain ⟨ls, _, rfl⟩ := mkNL_ok_none.mp h
    simp [intRange]
  | some idx =>
    obtain ⟨ls, _, hlen, rfl⟩ := mkNL_ok_some.mp h
    exact hlen.symm

theorem deriveLines_lineOK {inp : CtorInput} {ls : List (List Char)}
    (h : deriveLines inp = .ok ls) : ∀ l ∈ ls, lineOK l = true := by
  cases inp with
  | ofStr s =>
    cases h
    exact splitlines_lineOK
  | ofIter items =>
    cases h
    exact deriveFromItems_lineOK items
  | other => cases h

theorem mkNL_ok_lineOK {inp : CtorInput} {idx? : Option (List Int)}
    {X : NumberedLines} (h : mkNL inp idx? = .ok X) :
    ∀ l ∈ X.lines, lineOK l = true := by
  cases idx? with
  | none =>
    obtain ⟨ls, hd, rfl⟩ := mkNL_ok_none.mp h
    exact deriveLines_lineOK hd
  | some idx =>
    obtain ⟨ls, hd, _, rfl⟩ := mkNL_ok_some.mp h
    exact deriveLines_lineOK hd

theorem nlSlice_ok_mk {X Y : NumberedLines} {s e st : Option Int}
    (h : nlSlice X s e st = .ok Y) :
    ∃ li ii, sliceIndices X.lines.length s e st = .ok li ∧
      sliceIndices X.index.length s e st = .ok ii ∧
      mkNL (.ofIter ((selectAt X.lines [] li).map .str))
        (some (selectAt X.index 0 ii)) = .ok Y := by
  unfold nlSlice at h
  cases h1 : sliceIndices X.lines.length s e st with
  | error er => rw [h1] at h; cases h
  | ok li =>
    rw [h1] at h
    cases h2 : sliceIndices X.index.length s e st with
    | error er => rw [h2] at h; cases h
    | ok ii =>
      rw [h2] at h
      exact ⟨li, ii, rfl, rfl, h⟩

/-- A successful `filter` call stores exactly the kept lines with their kept
original indices. -/
theorem nlFilter_ok_elim {P : List Char → Bool} {X Y : NumberedLines}
    (hOK : ∀ l ∈ X.lines, lineOK l = true) (h : nlFilter P X = .ok Y) :
    Y = ⟨(keepPairs P X).map Prod.snd, (keepPairs P X).map Prod.fst⟩ := by
  unfold nlFilter at h
  have hmap : (keepPairs P X).map (fun p => CtorItem.str p.2) =
      ((keepPairs P X).map Prod.snd).map .str := by
    rw [List.map_map]; rfl
  rw [hmap] at h
  have hOK' : ∀ l ∈ (keepPairs P X).map Prod.snd, lineOK l = true := by
    intro l hl
    obtain ⟨p, hp, rfl⟩ := List.mem_map.mp hl
    have hpz : p ∈ X.index.zip X.lines := List.mem_of_mem_filter hp
    exact hOK p.2 (List.of_mem_zip hpz).2
  have hlen : ((keepPairs P X).map Prod.fst).length =
      ((keepPairs P X).map Prod.snd).length := by simp
  obtain ⟨_, rfl⟩ := (mkNL_strs_ok hOK' hlen).mp h
  rfl

/-- A successful `filter`'s pairs are a sublist of the original pairs. -/
theorem nlFilter_pairs_sublist {P : List Char → Bool} {X Y : NumberedLines}
    (hOK : ∀ l ∈ X.lines, lineOK l = true) (h : nlFilter P X = .ok Y) :
    List.Sublist (pairs Y) (pairs X) := by
  rw [nlFilter_ok_elim hOK h]
  show List.Sublist
    (((keepPairs P X).map Prod.fst).zip ((keepPairs P X).map Prod.snd)) _
  rw [zip_map_fst_snd]
  exact List.filter_sublist _

/-- A successful `reset_index` keeps the lines and renumbers from zero. -/
theorem nlResetIndex_ok_elim {X Y : NumberedLines}
    (hOK : ∀ l ∈ X.lines, lineOK l = true) (h : nlResetIndex X = .ok Y) :
    Y = ⟨X.lines, intRange X.lines.length⟩ := by
  unfold nlResetIndex at h
  have hlen : (intRange X.lines.length).length = X.lines.length := by
    simp [intRange]
  obtain ⟨_, rfl⟩ := (mkNL_strs_ok hOK hlen).mp h
  rfl

/-- A successful positive-step slice's pairs are a sublist of the original
pairs. -/
theorem nlSlice_pairs_sublist {X Y : NumberedLines} {s e st : Option Int}
    (hwf : WF X) (hst : 0 < st.getD 1) (h : nlSlice X s e st = .ok Y) :
    List.Sublist (pairs Y) (pairs X) := by
  obtain ⟨li, ii, h1, h2, hmk⟩ := nlSlice_ok_mk h
  have hlen_eq : X.index.length = X.lines.length := hwf.2.symm
  rw [hlen_eq, h1] at h2
  injection h2 with h2
  subst h2
  obtain ⟨a, k, cnt, hk, hie, hbnd⟩ := sliceIndices_pos_spec hst h1
  subst hie
  have hOK' : ∀ l ∈ selectAt X.lines []
      ((List.range cnt).map fun j => a + j * k), lineOK l = true := by
    intro l hl
    obtain ⟨i, hi, rfl⟩ := List.mem_map.mp hl
    obtain ⟨j, hj, rfl⟩ := List.mem_map.mp hi
    exact hwf.1 _ (getD_mem (hbnd j (List.mem_range.mp hj)))
  have hlen2 : (selectAt X.index 0
        ((List.range cnt).map fun j => a + j * k)).length =
      (selectAt X.lines [] ((List.range cnt).map fun j => a + j * k)).length := by
    simp [selectAt]
  obtain ⟨_, hYe⟩ := (mkNL_strs_ok hOK' hlen2).mp hmk
  subst hYe
  show List.Sublist
    ((selectAt X.index 0 _).zip (selectAt X.lines [] _)) (pairs X)
  have hz : (selectAt X.index 0 ((List.range cnt).map fun j => a + j * k)).zip
        (selectAt X.lines [] ((List.range cnt).map fun j => a + j * k)) =
      ((List.range cnt).map fun j => a + j * k).map
        fun i => (pairs X).getD i (0, []) := by
    simp only [selectAt]
    rw [List.zip_map']
    refine List.map_congr_left fun i hi => ?_
    obtain ⟨j, hj, rfl⟩ := List.mem_map.mp hi
    have hjn := hbnd j (List.mem_range.mp hj)
    exact (zip_getD 0 [] (by omega) hjn).symm
  rw [hz, List.map_map]
  have hsel := sel_sublist ((0 : Int), ([] : List Char)) k hk cnt a (pairs X)
    (by
      intro j hj
      have := hbnd j hj
      simp only [pairs, List.length_zip]
      omega)
  simpa [Function.comp] using hsel

/-! ### Decimal rendering and `format` lemmas -/

theorem natDecimalGo_congr :
    ∀ (f g n : Nat), n ≤ f → n ≤ g → natDecimalGo f n = natDecimalGo g n := by
  intro f
  induction f with
  | zero =>
    intro g n hf hg
    have hn : n = 0 := by omega
    subst hn
    cases g with
    | zero => rfl
    | succ g' => simp [natDecimalGo]
  | succ f' ih =>
    intro g n hf hg
    cases g with
    | zero =>
      have hn : n = 0 := by omega
      subst hn
      simp [natDecimalGo]
    | succ g' =>
      simp only [natDecimalGo]
      by_cases hn : n < 10
      · rw [if_pos hn, if_pos hn]
      · rw [if_neg hn, if_neg hn]
        have hdiv : n / 10 < n := Nat.div_lt_self (by omega) (by omega)
        rw [ih g' (n / 10) (by omega) (by omega)]

theorem natDecimal_eq (n : Nat) :
    natDecimal n =
      if n < 10 then [digitChar n]
      else natDecimal (n / 10) ++ [digitChar (n % 10)] := by
  unfold natDecimal
  cases n with
  | zero => simp [natDecimalGo]
  | succ m =>
    simp only [natDecimalGo]
    by_cases hn : m + 1 < 10
    · rw [if_pos hn, if_pos hn]
    · rw [if_neg hn, if_neg hn]
      have hdiv : (m + 1) / 10 < m + 1 := Nat.div_lt_self (by omega) (by omega)
      rw [natDecimalGo_congr m ((m + 1) / 10) ((m + 1) / 10) (by omega)
        (le_refl _)]

theorem natDecimal_length_pos (n : Nat) : 1 ≤ (natDecimal n).length := by
  rw [natDecimal_eq]
  split
  · simp
  · simp

theorem natDecimal_length_mono (n : Nat) :
    ∀ m, m ≤ n → (natDecimal m).length ≤ (natDecimal n).length := by
  induction n using Nat.strong_induction_on with
  | _ n ih =>
    intro m hmn
    by_cases hm : m < 10
    · rw [natDecimal_eq m, if_pos hm]
      by_cases hn : n < 10
      · rw [natDecimal_eq n, if_pos hn]
        simp
      · rw [natDecimal_eq n, if_neg hn]
        have := natDecimal_length_pos (n / 10)
        simp only [List.length_singleton, List.length_append]
        omega
    · have hn : ¬n < 10 := by omega
      rw [natDecimal_eq m, if_neg hm, natDecimal_eq n, if_neg hn]
      simp only [List.length_append, List.length_singleton]
      have hdiv : n / 10 < n := Nat.div_lt_self (by omega) (by omega)
      have := ih (n / 10) hdiv (m / 10) (Nat.div_le_div_right hmn)
      omega

theorem le_foldl_max (l : List Int) : ∀ b : Int, b ≤ l.foldl max b := by
  induction l with
  | nil => intro b; simp
  | cons a t ih =>
    intro b
    simp only [List.foldl_cons]
    exact le_trans (le_max_left b a) (ih (max b a))

theorem mem_le_foldl_max (l : List Int) :
    ∀ (b x : Int), x ∈ l → x ≤ l.foldl max b := by
  induction l with
  | nil => intro b x hx; simp at hx
  | cons a t ih =>
    intro b x hx
    simp only [List.foldl_cons]
    rcases List.mem_cons.mp hx with rfl | hx'
    · exact le_trans (le_max_right b x) (le_foldl_max t (max b x))
    · exact ih (max b a) x hx'

theorem maxOrZero_le {x : Int} {l : List Int} (h : x ∈ l) :
    x ≤ maxOrZero l := by
  cases l with
  | nil => simp at h
  | cons a t =>
    simp only [maxOrZero]
    rcases List.mem_cons.mp h with rfl | hx'
    · exact le_foldl_max t x
    · exact mem_le_foldl_max t a x hx'

theorem leftPad0_of_le {w : Nat} {s : List Char} (h : w ≤ s.length) :
    leftPad0 w s = s := by
  simp [leftPad0, Nat.sub_eq_zero_of_le h]

/-- On an all-negative index, the default pad computed from `len(str(max))`
(which counts the minus sign) and the pad computed from the digit count of
`max` render every entry identically: no entry is short enough to be
padded under either width. -/
theorem zeroPadInt_neg_congr {i M : Int} (hM : M < 0) (hiM : i ≤ M) :
    zeroPadInt (max 2 (intStr M).length) i =
      zeroPadInt (max 2 (natDecimal M.natAbs).length) i := by
  have hi : i < 0 := by omega
  have habs : M.natAbs ≤ i.natAbs := by omega
  have hmono := natDecimal_length_mono i.natAbs M.natAbs habs
  have hdM := natDecimal_length_pos M.natAbs
  have hdi := natDecimal_length_pos i.natAbs
  have hstr : (intStr M).length = 1 + (natDecimal M.natAbs).length := by
    rw [intStr, if_pos hM]
    simp [List.length_cons]
    omega
  rw [zeroPadInt, if_pos hi, zeroPadInt, if_pos hi, hstr]
  rw [leftPad0_of_le (by omega), leftPad0_of_le (by omega)]

theorem pyFormat_default_eq (X : NumberedLines) :
    pyFormat X none = specFormatDefault X := by
  unfold pyFormat specFormatDefault
  simp only [Option.getD]
  by_cases hM : maxOrZero X.index < 0
  · refine List.map_congr_left fun p hp => ?_
    have hp1 : p.1 ∈ X.index := (List.of_mem_zip hp).1
    rw [zeroPadInt_neg_congr hM (maxOrZero_le hp1)]
  · have heq : intStr (maxOrZero X.index) =
        natDecimal (maxOrZero X.index).natAbs := by
      rw [intStr, if_neg hM]
    rw [heq]

/-! ### Claim theorems -/

/-- Claim C1: the spec asserts that for every instance and all valid slice
bounds the slice succeeds with lines and index sliced in parallel.  The code
refutes this: `NumberedLines("a\n\nb")` is a legal instance (lines
`["a", "", "b"]`, index `[0, 1, 2]`), yet slicing it as `X[0:3]` raises the
constructor's length-mismatch `ValueError`, because `__getitem__` re-feeds
the sliced lines through the constructor and `"".splitlines()` drops the
empty line. -/
theorem claimC1_slice_fails_on_blank_line :
    mkNL (.ofStr strAnnB) none = .ok nlAnnB ∧
    nlSlice nlAnnB (some 0) (some 3) none = .error .lengthMismatch :=
  ⟨rfl, rfl⟩

/-- Claim C2: the spec asserts every non-construction operation is total and
never reaches the constructor's error branches.  The code refutes this:
on `NumberedLines("a\n\nb")`, `filter_out` with a predicate matching no line
keeps all three lines (including the empty one) and the internal
reconstruction raises the length-mismatch `ValueError`. -/
theorem claimC2_filter_out_not_total :
    mkNL (.ofStr strAnnB) none = .ok nlAnnB ∧
    nlFilterOut (fun l => l == [Char.ofNat 122]) nlAnnB =
      .error .lengthMismatch :=
  ⟨rfl, rfl⟩

/-- Claim C3: the spec asserts filter/filter_out complementarity for every
instance and predicate.  The code refutes this: on `NumberedLines("a\n\nb")`
with an always-matching predicate (e.g. `re.compile("")`), `filter` raises
the length-mismatch `ValueError` instead of returning the three lines with
indices `[0, 1, 2]`. -/
theorem claimC3_filter_raises_on_blank_line :
    mkNL (.ofStr strAnnB) none = .ok nlAnnB ∧
    nlFilter (fun _ => true) nlAnnB = .error .lengthMismatch :=
  ⟨rfl, rfl⟩

/-- Claim C4: the spec asserts `reset_index()` always returns a new instance
with the same lines and index `0..n-1`.  The code refutes this: on
`NumberedLines("x\n\n")` (lines `["x", ""]`), `reset_index()` raises the
length-mismatch `ValueError` because the re-construction drops the empty
line. -/
theorem claimC4_reset_index_fails_on_blank_line :
    mkNL (.ofStr strXnn) none = .ok nlXnn ∧
    nlResetIndex nlXnn = .error .lengthMismatch :=
  ⟨rfl, rfl⟩

/-- Claim C5, counterexample: the claim says integer access fails with an
out-of-range error for every `i` outside `[0, length)`; but on
`NumberedLines("a\nb")` the access `X[-1]` (with `-1` outside `[0, 2)`)
succeeds and returns `"b"`, by Python's negative-index semantics. -/
theorem claimC5_counterexample :
    mkNL (.ofStr strAB) none = .ok nlAB ∧
    nlGetInt nlAB (-1) = .ok [Char.ofNat 98] :=
  ⟨rfl, rfl⟩

/-- Claim C5 (amended): integer access returns the line at position `i` for
`i ∈ [0, n)`, the line at position `n + i` for `i ∈ [-n, 0)`, and fails
with an out-of-range error only for `i < -n` or `i ≥ n`. -/
theorem claimC5_amended (X : NumberedLines) (i : Int) :
    (0 ≤ i → i < X.lines.length →
      nlGetInt X i = .ok (X.lines.getD i.toNat [])) ∧
    (-(X.lines.length : Int) ≤ i → i < 0 →
      nlGetInt X i = .ok (X.lines.getD (i + X.lines.length).toNat [])) ∧
    ((i < -(X.lines.length : Int) ∨ (X.lines.length : Int) ≤ i) →
      nlGetInt X i = .error .indexOutOfRange) := by
  refine ⟨?_, ?_, ?_⟩
  · intro h0 hn
    have hi : ¬i < 0 := by omega
    simp only [nlGetInt, if_neg hi]
    rw [if_pos ⟨h0, hn⟩]
  · intro hge hlt
    simp only [nlGetInt, if_pos hlt]
    rw [if_pos ⟨by omega, by omega⟩]
  · intro hout
    by_cases hi : i < 0
    · simp only [nlGetInt, if_pos hi]
      rw [if_neg (by omega)]
    · simp only [nlGetInt, if_neg hi]
      rw [if_neg (by omega)]

/-- Witness for the amended claim C5 at the concrete input
`NumberedLines("a\nb")[-1]`. -/
theorem claimC5_witness :
    nlGetInt nlAB (-1) =
      .ok (nlAB.lines.getD ((-1 : Int) + (nlAB.lines.length : Int)).toNat []) :=
  (claimC5_amended nlAB (-1)).2.1 (by decide) (by decide)

/-- Claim C6: every successfully constructed instance, and the result of
every successful transformation (slice, filter, filter_out, reset_index),
has lines and index of equal length. -/
theorem claimC6_length_invariant :
    (∀ (inp : CtorInput) (idx? : Option (List Int)) (X : NumberedLines),
      mkNL inp idx? = .ok X → X.lines.length = X.index.length) ∧
    (∀ (X Y : NumberedLines) (s e st : Option Int),
      nlSlice X s e st = .ok Y → Y.lines.length = Y.index.length) ∧
    (∀ (P : List Char → Bool) (X Y : NumberedLines),
      nlFilter P X = .ok Y → Y.lines.length = Y.index.length) ∧
    (∀ (P : List Char → Bool) (X Y : NumberedLines),
      nlFilterOut P X = .ok Y → Y.lines.length = Y.index.length) ∧
    (∀ (X Y : NumberedLines),
      nlResetIndex X = .ok Y → Y.lines.length = Y.index.length) := by
  refine ⟨fun inp idx? X h => mkNL_ok_len h, ?_, ?_, ?_, ?_⟩
  · intro X Y s e st h
    obtain ⟨li, ii, _, _, hmk⟩ := nlSlice_ok_mk h
    exact mkNL_ok_len hmk
  · intro P X Y h
    unfold nlFilter at h
    exact mkNL_ok_len h
  · intro P X Y h
    unfold nlFilterOut at h
    exact mkNL_ok_len h
  · intro X Y h
    unfold nlResetIndex at h
    exact mkNL_ok_len h

/-- Witness for claim C6 at the concrete construction
`NumberedLines("a\nb")`. -/
theorem claimC6_witness : nlAB.lines.length = nlAB.index.length :=
  claimC6_length_invariant.1 (.ofStr strAB) none nlAB rfl

/-- Claim C7, counterexample: the claim says no built-in operation ever
reorders entries, but the negative-step slice `X[::-1]` on
`NumberedLines("a\nb")` succeeds and reverses both sequences, so its
`(index, line)` pairs `[(1, "b"), (0, "a")]` are not a sublist of the
original pairs `[(0, "a"), (1, "b")]`. -/
theorem claimC7_counterexample :
    mkNL (.ofStr strAB) none = .ok nlAB ∧
    nlSlice nlAB none none (some (-1)) =
      .ok ⟨[[Char.ofNat 98], [Char.ofNat 97]], [1, 0]⟩ ∧
    ¬List.Sublist (pairs ⟨[[Char.ofNat 98], [Char.ofNat 97]], [1, 0]⟩)
      (pairs nlAB) := by
  refine ⟨rfl, rfl, fun hsub => ?_⟩
  exact absurd (hsub.eq_of_length rfl) (by decide)

/-- Claim C7 (amended): on every well-formed instance, slicing with a
positive step, `filter`, and `filter_out` produce — whenever they succeed —
a sequence of `(index, line)` pairs that is a sublist (subsequence, in
order, without duplication) of the original's, and a successful
`reset_index` keeps the lines unchanged and renumbers the index to
`0..n-1`.  (Negative-step slices, which reverse the order, are the sole
exception to the original claim.) -/
theorem claimC7_amended (X : NumberedLines) (hwf : WF X) :
    (∀ (s e st : Option Int) (Y : NumberedLines), 0 < st.getD 1 →
      nlSlice X s e st = .ok Y → List.Sublist (pairs Y) (pairs X)) ∧
    (∀ (P : List Char → Bool) (Y : NumberedLines),
      nlFilter P X = .ok Y → List.Sublist (pairs Y) (pairs X)) ∧
    (∀ (P : List Char → Bool) (Y : NumberedLines),
      nlFilterOut P X = .ok Y → List.Sublist (pairs Y) (pairs X)) ∧
    (∀ (Y : NumberedLines), nlResetIndex X = .ok Y →
      Y.lines = X.lines ∧ Y.index = intRange X.lines.length) := by
  refine ⟨?_, ?_, ?_, ?_⟩
  · intro s e st Y hst h
    exact nlSlice_pairs_sublist hwf hst h
  · intro P Y h
    exact nlFilter_pairs_sublist hwf.1 h
  · intro P Y h
    exact nlFilter_pairs_sublist hwf.1 (h : nlFilter (fun l => !P l) X = .ok Y)
  · intro Y h
    rw [nlResetIndex_ok_elim hwf.1 h]
    exact ⟨rfl, rfl⟩

/-- Witness for the amended claim C7: filtering `NumberedLines("a\nb")`
with an always-true predicate returns the instance itself, whose pairs are
a sublist of themselves. -/
theorem claimC7_witness : List.Sublist (pairs nlAB) (pairs nlAB) :=
  (claimC7_amended nlAB (by decide)).2.1 (fun _ => true) nlAB rfl

/-- Claim C8: constructing with an explicit index fails with the
length-mismatch error exactly when the explicit index's length differs from
the number of lines produced by the splitting/flattening rule, and
otherwise stores exactly those lines and that index. -/
theorem claimC8_explicit_index_check (inp : CtorInput)
    (ls : List (List Char)) (idx : List Int)
    (hd : deriveLines inp = .ok ls) :
    (idx.length ≠ ls.length → mkNL inp (some idx) = .error .lengthMismatch) ∧
    (idx.length = ls.length → mkNL inp (some idx) = .ok ⟨ls, idx⟩) := by
  constructor
  · intro hne
    simp only [mkNL, hd, if_neg hne]
  · intro heq
    simp only [mkNL, hd, if_pos heq]

/-- Witness for claim C8: `NumberedLines(["a","b"], index=[5])` fails with
the length-mismatch error, while `NumberedLines(["a","b"], index=[5,7])`
succeeds and stores those lines and that index (the spec's scenario 5). -/
theorem claimC8_witness :
    mkNL (.ofIter [.str [Char.ofNat 97], .str [Char.ofNat 98]])
      (some [5]) = .error .lengthMismatch ∧
    mkNL (.ofIter [.str [Char.ofNat 97], .str [Char.ofNat 98]])
      (some [5, 7]) = .ok ⟨[[Char.ofNat 97], [Char.ofNat 98]], [5, 7]⟩ :=
  ⟨(claimC8_explicit_index_check
      (.ofIter [.str [Char.ofNat 97], .str [Char.ofNat 98]])
      [[Char.ofNat 97], [Char.ofNat 98]] [5] rfl).1 (by decide),
   (claimC8_explicit_index_check
      (.ofIter [.str [Char.ofNat 97], .str [Char.ofNat 98]])
      [[Char.ofNat 97], [Char.ofNat 98]] [5, 7] rfl).2 (by decide)⟩

/-- Claim C10: every instance produced by the public constructor — and hence
by every transformation, since each routes its result through the
constructor — has terminator-free lines: no stored line contains a
line-boundary character. -/
theorem claimC10_lines_terminator_free :
    (∀ (inp : CtorInput) (idx? : Option (List Int)) (X : NumberedLines),
      mkNL inp idx? = .ok X → ∀ l ∈ X.lines, lineOK l = true) ∧
    (∀ (X Y : NumberedLines) (s e st : Option Int),
      nlSlice X s e st = .ok Y → ∀ l ∈ Y.lines, lineOK l = true) ∧
    (∀ (P : List Char → Bool) (X Y : NumberedLines),
      nlFilter P X = .ok Y → ∀ l ∈ Y.lines, lineOK l = true) ∧
    (∀ (P : List Char → Bool) (X Y : NumberedLines),
      nlFilterOut P X = .ok Y → ∀ l ∈ Y.lines, lineOK l = true) ∧
    (∀ (X Y : NumberedLines),
      nlResetIndex X = .ok Y → ∀ l ∈ Y.lines, lineOK l = true) := by
  refine ⟨fun inp idx? X h => mkNL_ok_lineOK h, ?_, ?_, ?_, ?_⟩
  · intro X Y s e st h
    obtain ⟨li, ii, _, _, hmk⟩ := nlSlice_ok_mk h
    exact mkNL_ok_lineOK hmk
  · intro P X Y h
    unfold nlFilter at h
    exact mkNL_ok_lineOK h
  · intro P X Y h
    unfold nlFilterOut at h
    exact mkNL_ok_lineOK h
  · intro X Y h
    unfold nlResetIndex at h
    exact mkNL_ok_lineOK h

/-- Witness for claim C10 at the concrete construction
`NumberedLines("a\nb")`: the stored line `"a"` is terminator-free. -/
theorem claimC10_witness : lineOK [Char.ofNat 97] = true :=
  claimC10_lines_terminator_free.1 (.ofStr strAB) none nlAB rfl
    [Char.ofNat 97] (by decide)

/-- Claim C9: `format()` with no pad argument renders each `(index, line)`
pair as the index zero-padded to width
`max(2, number of decimal digits of max(index), or of 0 when index is
empty)`, followed by `": "`, followed by the line — i.e. it coincides with
the spec-modelled `specFormatDefault` — and (one string per line) on a
length-consistent instance the output has exactly one entry per line. -/
theorem claimC9_format_default (X : NumberedLines) :
    pyFormat X none = specFormatDefault X ∧
    (X.lines.length = X.index.length →
      (pyFormat X none).length = X.lines.length) := by
  refine ⟨pyFormat_default_eq X, fun hlen => ?_⟩
  simp only [pyFormat, List.length_map, List.length_zip]
  omega

/-- Witness for claim C9 at the concrete instance `NumberedLines("a\nb")`. -/
theorem claimC9_witness : (pyFormat nlAB none).length = nlAB.lines.length :=
  (claimC9_format_default nlAB).2 rfl

end EraPy
